import Mathlib

/-
Verification of the values-resolution engine of txtplate (main.go):
decoding values files, normalizing map keys (convertToMapStringIntf),
and deep-merging an ordered list of value trees (mergeMaps /
mergeMapsHelper, driven by readValuesFiles).

Modelling conventions:
- Go dynamic values (interface with an underlying value) are modelled by the
  inductive type GoVal.  Go maps are modelled as association lists; Go map
  iteration order is unspecified, and every observation made by the theorems
  below (success/failure of a run, per-key lookups) is independent of that
  order, so the list order stands in for one arbitrary iteration order.
- A Go runtime panic (failed type assertion, reflect.Value.Type on the zero
  Value) aborts the process; it is modelled by the dedicated result
  Res.panicked, or by Option.none for convertToMapStringIntf, which in the
  source has no error channel at all.
- mergeMapsHelper faithfully mirrors main.go lines 159-192, including the
  two type-check error branches and the fact that for a source value that is
  a nil interface, src.MapIndex(key).Elem() yields the zero reflect.Value,
  whose .Type() call panics; likewise for a nil value on the dst side of a
  shared key.
-/

/-- A Go dynamic value as produced by the json/yaml decoders: nil, bool,
number (numeric representation is irrelevant to normalization and merge,
which treat numbers as opaque scalars, so an integer model suffices),
string, slice, map with string keys, map with interface keys. -/
inductive GoVal where
  | vNull : GoVal
  | vBool (b : Bool) : GoVal
  | vInt (n : Int) : GoVal
  | vStr (s : String) : GoVal
  | vSeq (l : List GoVal) : GoVal
  | vStrMap (l : List (String × GoVal)) : GoVal
  | vIntfMap (l : List (GoVal × GoVal)) : GoVal

/-- The contents of a Go map with string keys, as an association list. -/
abbrev StrMap := List (String × GoVal)

/-- Go map read, v := m[k] / reflect MapIndex: first binding of the key
(bindings are unique in a real Go map). -/
def mapIndex (m : StrMap) (k : String) : Option GoVal :=
  match m with
  | [] => none
  | (k1, v) :: rest => if k1 = k then some v else mapIndex rest k

/-- Go map write, m[k] = v / reflect SetMapIndex: replace the binding of the
key if present, else add a binding. -/
def setKey (m : StrMap) (k : String) (v : GoVal) : StrMap :=
  match m with
  | [] => [(k, v)]
  | (k1, v1) :: rest => if k1 = k then (k, v) :: rest else (k1, v1) :: setKey rest k v

/-- Whether the dynamic type of a value is map with string keys
(reflect.TypeOf(map with string keys) comparison in the source). -/
def isStrMap (v : GoVal) : Bool :=
  match v with
  | .vStrMap _ => true
  | _ => false

/-- Whether a value is the nil interface. -/
def isNull (v : GoVal) : Bool :=
  match v with
  | .vNull => true
  | _ => false

/-- Whether a value is a scalar in the sense of the data model:
null, boolean, number or string. -/
def isScalar (v : GoVal) : Bool :=
  match v with
  | .vNull => true
  | .vBool _ => true
  | .vInt _ => true
  | .vStr _ => true
  | _ => false

/-- Errors returned by the resolution code paths: a values-file read
failure, a decode failure for the given format (both wrapped by
readValuesFiles), and the two type-check failures of mergeMapsHelper. -/
inductive RunErr where
  | readErr : RunErr
  | parseErr (yamlFmt : Bool) : RunErr
  | dstNotStrMap : RunErr
  | srcNotStrMap : RunErr

/-- Outcome of running a piece of the resolution: a value, a returned Go
error, or a runtime panic that crashes the run. -/
inductive Res (α : Type) where
  | ok (a : α) : Res α
  | failed (e : RunErr) : Res α
  | panicked : Res α

/-- The values-file format selected by extension sniffing (external to the
core: .yaml/.yml chooses the yaml decoder, anything else json). -/
inductive Fmt where
  | yaml : Fmt
  | json : Fmt

/-- What reading and syntax-checking one values file yields: an I/O error,
a syntactically malformed document, or a decoded document value. -/
inductive ParseResult where
  | readError : ParseResult
  | malformed : ParseResult
  | doc (v : GoVal) : ParseResult

/-- One values file, abstracted to its inferred format and the outcome of
reading/parsing its bytes. -/
structure VFile where
  fmt : Fmt
  parsed : ParseResult

/-- Keys of an interface-keyed mapping read into string keys, failing if
some key is not a string.  Used to model decoding a yaml mapping into a
target of string-keyed map type. -/
def strKeyPairs (l : List (GoVal × GoVal)) : Option StrMap :=
  match l with
  | [] => some []
  | (.vStr s, v) :: rest =>
    match strKeyPairs rest with
    | some m => some ((s, v) :: m)
    | none => none
  | _ :: _ => none

/-- Modelled from the library contract at the call site: encoding/json
Unmarshal into a variable of string-keyed map type (the declared type of
incomingData) succeeds if the document is a json object (string keys by
construction), leaves the map nil for a null document, and reports a
decode error for any other top-level shape, which readValuesFiles wraps as
a parse failure. -/
def decodeJSONTop (doc : GoVal) : Option StrMap :=
  match doc with
  | .vNull => some []
  | .vStrMap l => some l
  | _ => none

/-- Modelled from the library contract at the call site: yaml.v2 Unmarshal
into a variable of string-keyed map type succeeds if the document is a
mapping whose keys all decode as strings (yaml.v2 does not coerce a
non-string scalar key into a string target), leaves the map nil for an
empty/null document, and reports a decode error for any other top-level
shape.  Nested values keep the decoder's generic representation, in which
mappings are interface-keyed. -/
def decodeYAMLTop (doc : GoVal) : Option StrMap :=
  match doc with
  | .vNull => some []
  | .vStrMap l => some l
  | .vIntfMap l => strKeyPairs l
  | _ => none

mutual

/-- Normalization pass, main.go lines 127-143: for a string-keyed map,
convert every value in place; for an interface-keyed map, rebuild it as a
string-keyed map via the unchecked type assertion on each key (a non-string
key panics, modelled by none); every other value, including slices, is
returned unchanged by the default branch. -/
def convertToMapStringIntf (value : GoVal) : Option GoVal :=
  match value with
  | .vStrMap m =>
    match convStrEntries m with
    | some l => some (.vStrMap l)
    | none => none
  | .vIntfMap m =>
    match convIntfEntries m with
    | some l => some (.vStrMap l)
    | none => none
  | v => some v

/-- The value-conversion loop of the string-keyed map case. -/
def convStrEntries (l : List (String × GoVal)) : Option (List (String × GoVal)) :=
  match l with
  | [] => some []
  | (k, v) :: rest =>
    match convertToMapStringIntf v with
    | some v1 =>
      match convStrEntries rest with
      | some l1 => some ((k, v1) :: l1)
      | none => none
    | none => none

/-- The rebuild loop of the interface-keyed map case: each key must be a
string (the type assertion panics otherwise), each value is converted. -/
def convIntfEntries (l : List (GoVal × GoVal)) : Option (List (String × GoVal)) :=
  match l with
  | [] => some []
  | (.vStr k, v) :: rest =>
    match convertToMapStringIntf v with
    | some v1 =>
      match convIntfEntries rest with
      | some l1 => some ((k, v1) :: l1)
      | none => none
    | none => none
  | _ :: _ => none

end

mutual

/-- Deep merge, main.go lines 159-192: check that dst and then src have the
string-keyed map type (error return otherwise), then fold over the keys of
src. -/
def mergeMapsHelper (dst src : GoVal) : Res GoVal :=
  match dst, src with
  | .vStrMap d, .vStrMap s => mergeLoop d s
  | .vStrMap _, _ => .failed .srcNotStrMap
  | _, _ => .failed .dstNotStrMap

/-- The per-key loop of mergeMapsHelper.  For each source key:
src.MapIndex(key).Elem().Type() panics when the source value is the nil
interface; when the key is present in dst, dstValue.Elem().Type() likewise
panics on a nil value; when both values have the string-keyed map type the
helper recurses and stores the merged submap; otherwise the source value is
stored wholesale. -/
def mergeLoop (d : StrMap) (l : StrMap) : Res GoVal :=
  match l with
  | [] => .ok (.vStrMap d)
  | (k, v) :: rest =>
    match v, mapIndex d k with
    | .vNull, _ => .panicked
    | _, some .vNull => .panicked
    | .vStrMap s1, some (.vStrMap d1) =>
      match mergeMapsHelper (.vStrMap d1) (.vStrMap s1) with
      | .ok m => mergeLoop (setKey d k m) rest
      | .failed e => .failed e
      | .panicked => .panicked
    | _, _ => mergeLoop (setKey d k v) rest

end

/-- mergeMaps, main.go lines 150-157: run the helper, propagate its error,
and type-assert the result back to a string-keyed map (the assertion cannot
fail on a helper success, but it is modelled faithfully as a panic). -/
def mergeMaps (dst src : GoVal) : Res StrMap :=
  match mergeMapsHelper dst src with
  | .ok (.vStrMap m) => .ok m
  | .ok _ => .panicked
  | .failed e => .failed e
  | .panicked => .panicked

/-- Processing of one values file inside the loop of readValuesFiles,
main.go lines 96-113: read the bytes, decode them by format into a
string-keyed map variable (wrapping read and decode failures), and in the
yaml branch run the normalization pass followed by the type assertion back
to a string-keyed map. -/
def processFile (f : VFile) : Res StrMap :=
  match f.parsed with
  | .readError => .failed .readErr
  | .malformed =>
    match f.fmt with
    | .yaml => .failed (.parseErr true)
    | .json => .failed (.parseErr false)
  | .doc v =>
    match f.fmt with
    | .yaml =>
      match decodeYAMLTop v with
      | none => .failed (.parseErr true)
      | some m =>
        match convertToMapStringIntf (.vStrMap m) with
        | some (.vStrMap m1) => .ok m1
        | some _ => .panicked
        | none => .panicked
    | .json =>
      match decodeJSONTop v with
      | none => .failed (.parseErr false)
      | some m => .ok m

/-- The fold of readValuesFiles, main.go lines 96-119: process each file in
order and merge it into the accumulator, returning the first error and
never touching the remaining files after a failure. -/
def readValuesFilesAux (data : StrMap) (files : List VFile) : Res StrMap :=
  match files with
  | [] => .ok data
  | f :: rest =>
    match processFile f with
    | .failed e => .failed e
    | .panicked => .panicked
    | .ok incomingData =>
      match mergeMaps (.vStrMap data) (.vStrMap incomingData) with
      | .failed e => .failed e
      | .panicked => .panicked
      | .ok merged => readValuesFilesAux merged rest

/-- readValuesFiles, main.go lines 93-122: fold the files into an
accumulator that starts as the empty string-keyed map. -/
def readValuesFiles (files : List VFile) : Res StrMap :=
  readValuesFilesAux [] files

/-- Sequencing of resolution outcomes: continue on a value, propagate a
returned error or a panic. -/
def resBind {α β : Type} (r : Res α) (f : α → Res β) : Res β :=
  match r with
  | .ok a => f a
  | .failed e => .failed e
  | .panicked => .panicked

/-- A convenient constructor for a json values file whose document is a
string-keyed mapping. -/
def jsonFile (m : StrMap) : VFile :=
  ⟨.json, .doc (.vStrMap m)⟩

mutual

/-- Whether every interface-keyed mapping the normalization pass reaches
(through map values, not through slices, which it never enters) has only
string keys, i.e. whether the pass terminates without panicking. -/
def keysOK (value : GoVal) : Bool :=
  match value with
  | .vStrMap m => keysOKStr m
  | .vIntfMap m => keysOKIntf m
  | _ => true

/-- keysOK over the values of a string-keyed map. -/
def keysOKStr (l : List (String × GoVal)) : Bool :=
  match l with
  | [] => true
  | (_, v) :: rest => keysOK v && keysOKStr rest

/-- keysOK over an interface-keyed map: every key a string, every value
recursively fine. -/
def keysOKIntf (l : List (GoVal × GoVal)) : Bool :=
  match l with
  | [] => true
  | (.vStr _, v) :: rest => keysOK v && keysOKIntf rest
  | _ :: _ => false

end

/-- Whether the keys of an association list are pairwise distinct, as the
bindings of a real Go map always are. -/
def nodupKeys (l : StrMap) : Bool :=
  match l with
  | [] => true
  | (k, _) :: rest =>
    match mapIndex rest k with
    | some _ => false
    | none => nodupKeys rest

mutual

/-- Whether a value tree can be merged into itself without panicking:
every string-keyed map node reachable through string-keyed map values has
pairwise distinct keys and no nil value.  Slices and interface-keyed maps
are opaque to the merge, which never recurses into them. -/
def selfMergeOK (value : GoVal) : Bool :=
  match value with
  | .vStrMap m => nodupKeys m && selfMergeOKStr m
  | _ => true

/-- selfMergeOK over the bindings of a string-keyed map. -/
def selfMergeOKStr (l : StrMap) : Bool :=
  match l with
  | [] => true
  | (_, v) :: rest => !isNull v && selfMergeOK v && selfMergeOKStr rest

end

/-- The self-merge precondition applied to the outcome of processing one
file: trivial on failures, the tree condition on success. -/
def treeSelfOK (r : Res StrMap) : Bool :=
  match r with
  | .ok t => nodupKeys t && selfMergeOKStr t
  | _ => true

theorem mapIndex_setKey_eq (m : StrMap) (k : String) (v : GoVal) :
    mapIndex (setKey m k v) k = some v := by
  induction m with
  | nil => simp [setKey, mapIndex]
  | cons hd rest ih =>
    obtain ⟨k1, v1⟩ := hd
    by_cases h : k1 = k
    · subst h; simp [setKey, mapIndex]
    · simp [setKey, mapIndex, h, ih]

theorem mapIndex_setKey_ne (m : StrMap) (k k1 : String) (v : GoVal) (h : k1 ≠ k) :
    mapIndex (setKey m k1 v) k = mapIndex m k := by
  induction m with
  | nil => simp [setKey, mapIndex, h]
  | cons hd rest ih =>
    obtain ⟨k2, v2⟩ := hd
    by_cases h2 : k2 = k1
    · subst h2; simp [setKey, mapIndex, h]
    · by_cases h3 : k2 = k
      · subst h3; simp [setKey, mapIndex, h2]
      · simp [setKey, mapIndex, h2, h3, ih]

theorem setKey_self (m : StrMap) (k : String) (v : GoVal) (h : mapIndex m k = some v) :
    setKey m k v = m := by
  induction m with
  | nil => simp [mapIndex] at h
  | cons hd rest ih =>
    obtain ⟨k1, v1⟩ := hd
    by_cases h1 : k1 = k
    · subst h1
      simp [mapIndex] at h
      simp [setKey, h]
    · simp [mapIndex, h1] at h
      simp [setKey, h1, ih h]

theorem setKey_absent (m : StrMap) (k : String) (v : GoVal) (h : mapIndex m k = none) :
    setKey m k v = m ++ [(k, v)] := by
  induction m with
  | nil => simp [setKey]
  | cons hd rest ih =>
    obtain ⟨k1, v1⟩ := hd
    by_cases h1 : k1 = k
    · subst h1; simp [mapIndex] at h
    · simp [mapIndex, h1] at h
      simp [setKey, h1, ih h]

theorem mapIndex_append_left (m1 m2 : StrMap) (k : String) (h : mapIndex m1 k = none) :
    mapIndex (m1 ++ m2) k = mapIndex m2 k := by
  induction m1 with
  | nil => simp
  | cons hd rest ih =>
    obtain ⟨k1, v1⟩ := hd
    by_cases h1 : k1 = k
    · subst h1; simp [mapIndex] at h
    · simp [mapIndex, h1] at h
      simp [mapIndex, h1, ih h]

theorem nodupKeys_mapIndex (l : StrMap) (k : String) (v : GoVal)
    (hn : nodupKeys l = true) (hm : (k, v) ∈ l) : mapIndex l k = some v := by
  induction l with
  | nil => simp at hm
  | cons hd rest ih =>
    obtain ⟨k1, v1⟩ := hd
    simp only [nodupKeys] at hn
    rcases hmi : mapIndex rest k1 with _ | w
    · rw [hmi] at hn
      rcases List.mem_cons.mp hm with h | h
      · obtain ⟨rfl, rfl⟩ := Prod.mk.injEq .. ▸ h
        simp [mapIndex]
      · by_cases hk : k1 = k
        · subst hk
          have := ih hn h
          exact absurd (hmi ▸ this) (by simp)
        · simp [mapIndex, hk, ih hn h]
    · rw [hmi] at hn; exact absurd hn (by simp)

theorem selfMergeOKStr_member (l : StrMap) (k : String) (v : GoVal)
    (hs : selfMergeOKStr l = true) (hm : (k, v) ∈ l) :
    isNull v = false ∧ selfMergeOK v = true := by
  induction l with
  | nil => simp at hm
  | cons hd rest ih =>
    obtain ⟨k1, v1⟩ := hd
    simp only [selfMergeOKStr, Bool.and_eq_true, Bool.not_eq_true'] at hs
    rcases List.mem_cons.mp hm with h | h
    · obtain ⟨rfl, rfl⟩ := Prod.mk.injEq .. ▸ h
      exact ⟨hs.1.1, hs.1.2⟩
    · exact ih hs.2 h



theorem isNull_iff (v : GoVal) : isNull v = true ↔ v = .vNull := by
  cases v <;> simp [isNull]

theorem isStrMap_iff (v : GoVal) : isStrMap v = true ↔ ∃ m : StrMap, v = .vStrMap m := by
  cases v <;> simp [isStrMap]

theorem mergeLoop_nil (d : StrMap) : mergeLoop d [] = .ok (.vStrMap d) :=
  mergeLoop.eq_1 d

theorem mergeLoop_cons_nullSrc (d : StrMap) (k : String) (rest : StrMap) :
    mergeLoop d ((k, .vNull) :: rest) = .panicked := by
  simp only [mergeLoop.eq_def]

theorem mergeLoop_cons_nullDst (d : StrMap) (k : String) (v : GoVal) (rest : StrMap)
    (hv : isNull v = false) (hdk : mapIndex d k = some .vNull) :
    mergeLoop d ((k, v) :: rest) = .panicked := by
  rw [mergeLoop.eq_def]
  dsimp only
  rw [hdk]
  cases v <;> rfl

theorem mergeLoop_cons_recurse (d : StrMap) (k : String) (rest : StrMap) (d1 s1 : StrMap)
    (hdk : mapIndex d k = some (.vStrMap d1)) :
    mergeLoop d ((k, .vStrMap s1) :: rest) =
      match mergeMapsHelper (.vStrMap d1) (.vStrMap s1) with
      | .ok m => mergeLoop (setKey d k m) rest
      | .failed e => .failed e
      | .panicked => .panicked := by
  rw [mergeLoop.eq_def]
  dsimp only
  rw [hdk]

theorem mergeLoop_cons_replace_absent (d : StrMap) (k : String) (v : GoVal) (rest : StrMap)
    (hv : isNull v = false) (hdk : mapIndex d k = none) :
    mergeLoop d ((k, v) :: rest) = mergeLoop (setKey d k v) rest := by
  rw [mergeLoop.eq_def]
  dsimp only
  rw [hdk]
  cases v <;> first | rfl | simp_all [isNull]

theorem mergeLoop_cons_replace_present (d : StrMap) (k : String) (v dv : GoVal) (rest : StrMap)
    (hv : isNull v = false) (hdv : isNull dv = false) (hdk : mapIndex d k = some dv)
    (hns : isStrMap dv = false ∨ isStrMap v = false) :
    mergeLoop d ((k, v) :: rest) = mergeLoop (setKey d k v) rest := by
  rw [mergeLoop.eq_def]
  dsimp only
  rw [hdk]
  cases v <;> cases dv <;> first | rfl | simp_all [isNull, isStrMap]

theorem mergeLoop_ok_shape (l : StrMap) : ∀ (d : StrMap) (x : GoVal),
    mergeLoop d l = .ok x → ∃ m : StrMap, x = .vStrMap m := by
  induction l with
  | nil =>
    intro d x h
    rw [mergeLoop_nil] at h
    cases h
    exact ⟨d, rfl⟩
  | cons hd rest ih =>
    intro d x h
    obtain ⟨k1, v1⟩ := hd
    by_cases hn : isNull v1 = true
    · rw [(isNull_iff v1).mp hn] at h
      rw [mergeLoop_cons_nullSrc] at h
      cases h
    · have hn' : isNull v1 = false := by simpa using hn
      rcases hdk : mapIndex d k1 with _ | dv
      · rw [mergeLoop_cons_replace_absent _ _ _ _ hn' hdk] at h
        exact ih _ _ h
      · by_cases hdn : isNull dv = true
        · rw [(isNull_iff dv).mp hdn] at hdk
          rw [mergeLoop_cons_nullDst _ _ _ _ hn' hdk] at h
          cases h
        · have hdn' : isNull dv = false := by simpa using hdn
          by_cases hb : isStrMap dv = true ∧ isStrMap v1 = true
          · obtain ⟨d1, rfl⟩ := (isStrMap_iff dv).mp hb.1
            obtain ⟨s1, rfl⟩ := (isStrMap_iff v1).mp hb.2
            rw [mergeLoop_cons_recurse _ _ _ _ _ hdk] at h
            rcases hmm : mergeMapsHelper (.vStrMap d1) (.vStrMap s1) with m | e | _ <;>
              rw [hmm] at h
            · exact ih _ _ h
            · cases h
            · cases h
          · have hns : isStrMap dv = false ∨ isStrMap v1 = false := by
              rcases Decidable.not_and_iff_or_not.mp hb with h1 | h1
              · exact Or.inl (by simpa using h1)
              · exact Or.inr (by simpa using h1)
            rw [mergeLoop_cons_replace_present _ _ _ _ _ hn' hdn' hdk hns] at h
            exact ih _ _ h

theorem mergeLoop_frame (l : StrMap) : ∀ (d m : StrMap) (k : String),
    mapIndex l k = none → mergeLoop d l = .ok (.vStrMap m) →
    mapIndex m k = mapIndex d k := by
  induction l with
  | nil =>
    intro d m k _ h
    rw [mergeLoop_nil] at h
    cases h
    rfl
  | cons hd rest ih =>
    intro d m k hl h
    obtain ⟨k1, v1⟩ := hd
    have hne : k1 ≠ k := by
      intro he
      simp [mapIndex, he] at hl
    have hrest : mapIndex rest k = none := by
      simpa [mapIndex, hne] using hl
    by_cases hn : isNull v1 = true
    · rw [(isNull_iff v1).mp hn, mergeLoop_cons_nullSrc] at h
      cases h
    · have hn' : isNull v1 = false := by simpa using hn
      rcases hdk : mapIndex d k1 with _ | dv
      · rw [mergeLoop_cons_replace_absent _ _ _ _ hn' hdk] at h
        rw [ih _ _ _ hrest h, mapIndex_setKey_ne _ _ _ _ hne]
      · by_cases hdn : isNull dv = true
        · rw [(isNull_iff dv).mp hdn] at hdk
          rw [mergeLoop_cons_nullDst _ _ _ _ hn' hdk] at h
          cases h
        · have hdn' : isNull dv = false := by simpa using hdn
          by_cases hb : isStrMap dv = true ∧ isStrMap v1 = true
          · obtain ⟨d1, rfl⟩ := (isStrMap_iff dv).mp hb.1
            obtain ⟨s1, rfl⟩ := (isStrMap_iff v1).mp hb.2
            rw [mergeLoop_cons_recurse _ _ _ _ _ hdk] at h
            rcases hmm : mergeMapsHelper (.vStrMap d1) (.vStrMap s1) with mm | e | _ <;>
              rw [hmm] at h
            · rw [ih _ _ _ hrest h, mapIndex_setKey_ne _ _ _ _ hne]
            · cases h
            · cases h
          · have hns : isStrMap dv = false ∨ isStrMap v1 = false := by
              rcases Decidable.not_and_iff_or_not.mp hb with h1 | h1
              · exact Or.inl (by simpa using h1)
              · exact Or.inr (by simpa using h1)
            rw [mergeLoop_cons_replace_present _ _ _ _ _ hn' hdn' hdk hns] at h
            rw [ih _ _ _ hrest h, mapIndex_setKey_ne _ _ _ _ hne]

theorem mergeMapsHelper_strMaps (d s : StrMap) :
    mergeMapsHelper (.vStrMap d) (.vStrMap s) = mergeLoop d s := by
  rw [mergeMapsHelper.eq_def]

theorem mergeMapsHelper_srcErr (d : StrMap) (src : GoVal) (h : isStrMap src = false) :
    mergeMapsHelper (.vStrMap d) src = .failed .srcNotStrMap := by
  rw [mergeMapsHelper.eq_def]
  cases src <;> first | rfl | simp_all [isStrMap]

theorem mergeMapsHelper_dstErr (dst src : GoVal) (h : isStrMap dst = false) :
    mergeMapsHelper dst src = .failed .dstNotStrMap := by
  rw [mergeMapsHelper.eq_def]
  cases dst <;> first | rfl | simp_all [isStrMap]

theorem nodupKeys_cons (k : String) (v : GoVal) (rest : StrMap) :
    nodupKeys ((k, v) :: rest) = true ↔ mapIndex rest k = none ∧ nodupKeys rest = true := by
  constructor
  · intro h
    simp only [nodupKeys] at h
    rcases hmi : mapIndex rest k with _ | w
    · rw [hmi] at h
      exact ⟨rfl, h⟩
    · rw [hmi] at h
      cases h
  · intro ⟨h1, h2⟩
    simp only [nodupKeys]
    rw [h1]
    exact h2

theorem mergeLoop_lookup_replace (l : StrMap) : ∀ (d m : StrMap) (k : String) (v : GoVal),
    nodupKeys l = true → mapIndex l k = some v →
    (isStrMap v = false ∨ ∀ dv : GoVal, mapIndex d k = some dv → isStrMap dv = false) →
    mergeLoop d l = .ok (.vStrMap m) → mapIndex m k = some v := by
  induction l with
  | nil =>
    intro d m k v _ hlk _ _
    simp [mapIndex] at hlk
  | cons hd rest ih =>
    intro d m k v hnd hlk hcond h
    obtain ⟨k1, v1⟩ := hd
    obtain ⟨hr1, hr2⟩ := (nodupKeys_cons _ _ _).mp hnd
    by_cases hkk : k1 = k
    · subst hkk
      have hv1 : v1 = v := by simpa [mapIndex] using hlk
      subst hv1
      by_cases hn : isNull v1 = true
      · rw [(isNull_iff v1).mp hn, mergeLoop_cons_nullSrc] at h
        cases h
      · have hn' : isNull v1 = false := by simpa using hn
        rcases hdk : mapIndex d k1 with _ | dv
        · rw [mergeLoop_cons_replace_absent _ _ _ _ hn' hdk] at h
          rw [mergeLoop_frame _ _ _ _ hr1 h, mapIndex_setKey_eq]
        · by_cases hdn : isNull dv = true
          · rw [(isNull_iff dv).mp hdn] at hdk
            rw [mergeLoop_cons_nullDst _ _ _ _ hn' hdk] at h
            cases h
          · have hdn' : isNull dv = false := by simpa using hdn
            have hns : isStrMap dv = false ∨ isStrMap v1 = false := by
              rcases hcond with hc | hc
              · exact Or.inr hc
              · exact Or.inl (hc dv hdk)
            rw [mergeLoop_cons_replace_present _ _ _ _ _ hn' hdn' hdk hns] at h
            rw [mergeLoop_frame _ _ _ _ hr1 h, mapIndex_setKey_eq]
    · have hlk' : mapIndex rest k = some v := by simpa [mapIndex, hkk] using hlk
      by_cases hn : isNull v1 = true
      · rw [(isNull_iff v1).mp hn, mergeLoop_cons_nullSrc] at h
        cases h
      · have hn' : isNull v1 = false := by simpa using hn
        rcases hdk : mapIndex d k1 with _ | dv
        · rw [mergeLoop_cons_replace_absent _ _ _ _ hn' hdk] at h
          refine ih _ _ _ _ hr2 hlk' ?_ h
          rcases hcond with hc | hc
          · exact Or.inl hc
          · refine Or.inr fun dv hdv => hc dv ?_
            rwa [mapIndex_setKey_ne _ _ _ _ hkk] at hdv
        · by_cases hdn : isNull dv = true
          · rw [(isNull_iff dv).mp hdn] at hdk
            rw [mergeLoop_cons_nullDst _ _ _ _ hn' hdk] at h
            cases h
          · have hdn' : isNull dv = false := by simpa using hdn
            by_cases hb : isStrMap dv = true ∧ isStrMap v1 = true
            · obtain ⟨d1, rfl⟩ := (isStrMap_iff dv).mp hb.1
              obtain ⟨s1, rfl⟩ := (isStrMap_iff v1).mp hb.2
              rw [mergeLoop_cons_recurse _ _ _ _ _ hdk] at h
              rcases hmm : mergeMapsHelper (.vStrMap d1) (.vStrMap s1) with mm | e | _ <;>
                rw [hmm] at h
              · refine ih _ _ _ _ hr2 hlk' ?_ h
                rcases hcond with hc | hc
                · exact Or.inl hc
                · refine Or.inr fun dv hdv => hc dv ?_
                  rwa [mapIndex_setKey_ne _ _ _ _ hkk] at hdv
              · cases h
              · cases h
            · have hns : isStrMap dv = false ∨ isStrMap v1 = false := by
                rcases Decidable.not_and_iff_or_not.mp hb with h1 | h1
                · exact Or.inl (by simpa using h1)
                · exact Or.inr (by simpa using h1)
              rw [mergeLoop_cons_replace_present _ _ _ _ _ hn' hdn' hdk hns] at h
              refine ih _ _ _ _ hr2 hlk' ?_ h
              rcases hcond with hc | hc
              · exact Or.inl hc
              · refine Or.inr fun dv hdv => hc dv ?_
                rwa [mapIndex_setKey_ne _ _ _ _ hkk] at hdv

theorem mergeLoop_lookup_recurse (l : StrMap) : ∀ (d m d1 s1 : StrMap) (k : String),
    nodupKeys l = true → mapIndex l k = some (.vStrMap s1) →
    mapIndex d k = some (.vStrMap d1) →
    mergeLoop d l = .ok (.vStrMap m) →
    ∃ m1 : StrMap, mergeMapsHelper (.vStrMap d1) (.vStrMap s1) = .ok (.vStrMap m1) ∧
      mapIndex m k = some (.vStrMap m1) := by
  induction l with
  | nil =>
    intro d m d1 s1 k _ hlk _ _
    simp [mapIndex] at hlk
  | cons hd rest ih =>
    intro d m d1 s1 k hnd hlk hdk h
    obtain ⟨k1, v1⟩ := hd
    obtain ⟨hr1, hr2⟩ := (nodupKeys_cons _ _ _).mp hnd
    by_cases hkk : k1 = k
    · subst hkk
      have hv1 : v1 = .vStrMap s1 := by simpa [mapIndex] using hlk
      subst hv1
      rw [mergeLoop_cons_recurse _ _ _ _ _ hdk] at h
      rcases hmm : mergeMapsHelper (.vStrMap d1) (.vStrMap s1) with mm | e | _ <;>
        rw [hmm] at h
      · obtain ⟨m1, rfl⟩ : ∃ m1 : StrMap, mm = .vStrMap m1 := by
          rw [mergeMapsHelper_strMaps] at hmm
          exact mergeLoop_ok_shape _ _ _ hmm
        refine ⟨m1, rfl, ?_⟩
        rw [mergeLoop_frame _ _ _ _ hr1 h, mapIndex_setKey_eq]
      · cases h
      · cases h
    · have hlk' : mapIndex rest k = some (.vStrMap s1) := by
        simpa [mapIndex, hkk] using hlk
      by_cases hn : isNull v1 = true
      · rw [(isNull_iff v1).mp hn, mergeLoop_cons_nullSrc] at h
        cases h
      · have hn' : isNull v1 = false := by simpa using hn
        rcases hdk1 : mapIndex d k1 with _ | dv
        · rw [mergeLoop_cons_replace_absent _ _ _ _ hn' hdk1] at h
          refine ih _ _ _ _ _ hr2 hlk' ?_ h
          rwa [mapIndex_setKey_ne _ _ _ _ hkk]
        · by_cases hdn : isNull dv = true
          · rw [(isNull_iff dv).mp hdn] at hdk1
            rw [mergeLoop_cons_nullDst _ _ _ _ hn' hdk1] at h
            cases h
          · have hdn' : isNull dv = false := by simpa using hdn
            by_cases hb : isStrMap dv = true ∧ isStrMap v1 = true
            · obtain ⟨dd, rfl⟩ := (isStrMap_iff dv).mp hb.1
              obtain ⟨ss, rfl⟩ := (isStrMap_iff v1).mp hb.2
              rw [mergeLoop_cons_recurse _ _ _ _ _ hdk1] at h
              rcases hmm : mergeMapsHelper (.vStrMap dd) (.vStrMap ss) with mm | e | _ <;>
                rw [hmm] at h
              · refine ih _ _ _ _ _ hr2 hlk' ?_ h
                rwa [mapIndex_setKey_ne _ _ _ _ hkk]
              · cases h
              · cases h
            · have hns : isStrMap dv = false ∨ isStrMap v1 = false := by
                rcases Decidable.not_and_iff_or_not.mp hb with h1 | h1
                · exact Or.inl (by simpa using h1)
                · exact Or.inr (by simpa using h1)
              rw [mergeLoop_cons_replace_present _ _ _ _ _ hn' hdn' hdk1 hns] at h
              refine ih _ _ _ _ _ hr2 hlk' ?_ h
              rwa [mapIndex_setKey_ne _ _ _ _ hkk]

theorem mapIndex_ne_none_of_mem (l : StrMap) (k : String) (v : GoVal)
    (h : (k, v) ∈ l) : mapIndex l k ≠ none := by
  induction l with
  | nil => simp at h
  | cons hd rest ih =>
    obtain ⟨k1, v1⟩ := hd
    rcases List.mem_cons.mp h with h1 | h1
    · obtain ⟨rfl, rfl⟩ := Prod.mk.injEq .. ▸ h1
      simp [mapIndex]
    · by_cases hk : k1 = k
      · simp [mapIndex, hk]
      · simpa [mapIndex, hk] using ih h1

theorem mergeLoop_disjoint (l : StrMap) : ∀ d : StrMap,
    nodupKeys l = true →
    (∀ (k : String) (v : GoVal), (k, v) ∈ l → mapIndex d k = none) →
    (∀ (k : String) (v : GoVal), (k, v) ∈ l → isNull v = false) →
    mergeLoop d l = .ok (.vStrMap (d ++ l)) := by
  induction l with
  | nil =>
    intro d _ _ _
    simp [mergeLoop_nil]
  | cons hd rest ih =>
    intro d hnd habs hnn
    obtain ⟨k1, v1⟩ := hd
    obtain ⟨hr1, hr2⟩ := (nodupKeys_cons _ _ _).mp hnd
    have h1 : mapIndex d k1 = none := habs k1 v1 (List.mem_cons_self _ _)
    have h2 : isNull v1 = false := hnn k1 v1 (List.mem_cons_self _ _)
    rw [mergeLoop_cons_replace_absent _ _ _ _ h2 h1, setKey_absent _ _ _ h1]
    have habs' : ∀ (k : String) (v : GoVal), (k, v) ∈ rest →
        mapIndex (d ++ [(k1, v1)]) k = none := by
      intro k v hm
      have hk1 : k ≠ k1 := by
        intro he
        subst he
        exact mapIndex_ne_none_of_mem rest k v hm hr1
      rw [mapIndex_append_left _ _ _ (habs k v (List.mem_cons_of_mem _ hm))]
      simp [mapIndex, hk1, Ne.symm hk1]
    have := ih (d ++ [(k1, v1)]) hr2 habs'
      (fun k v hm => hnn k v (List.mem_cons_of_mem _ hm))
    simpa using this

theorem selfMergeOK_strMap (m : StrMap) :
    selfMergeOK (.vStrMap m) = (nodupKeys m && selfMergeOKStr m) := by
  rw [selfMergeOK.eq_def]

theorem mergeLoop_self_aux : ∀ n : Nat, ∀ l t : StrMap, sizeOf l ≤ n →
    nodupKeys t = true → selfMergeOKStr t = true →
    (∀ (k : String) (v : GoVal), (k, v) ∈ l → mapIndex t k = some v) →
    (∀ (k : String) (v : GoVal), (k, v) ∈ l →
      isNull v = false ∧ selfMergeOK v = true) →
    mergeLoop t l = .ok (.vStrMap t) := by
  intro n
  induction n using Nat.strong_induction_on with
  | _ n ih =>
    intro l t hsz hnd hsm hmem hcond
    match l with
    | [] => simp [mergeLoop_nil]
    | (k1, v1) :: rest =>
      have hm1 : mapIndex t k1 = some v1 := hmem k1 v1 (List.mem_cons_self _ _)
      obtain ⟨hnn1, hok1⟩ := hcond k1 v1 (List.mem_cons_self _ _)
      have hszrest : sizeOf rest < n := by
        have : sizeOf rest < sizeOf ((k1, v1) :: rest) := by
          simp
        omega
      have hrest := ih (sizeOf rest) hszrest rest t (le_refl _) hnd hsm
        (fun k v hm => hmem k v (List.mem_cons_of_mem _ hm))
        (fun k v hm => hcond k v (List.mem_cons_of_mem _ hm))
      by_cases hsmv : isStrMap v1 = true
      · obtain ⟨s1, rfl⟩ := (isStrMap_iff v1).mp hsmv
        rw [mergeLoop_cons_recurse _ _ _ _ _ hm1]
        have hs1 : sizeOf s1 < n := by
          have : sizeOf s1 < sizeOf ((k1, GoVal.vStrMap s1) :: rest) := by
            simp
            omega
          omega
        have hsub : nodupKeys s1 = true ∧ selfMergeOKStr s1 = true := by
          have := hok1
          rw [selfMergeOK_strMap] at this
          exact ⟨(Bool.and_eq_true .. ▸ this).1, (Bool.and_eq_true .. ▸ this).2⟩
        have hself : mergeLoop s1 s1 = .ok (.vStrMap s1) :=
          ih (sizeOf s1) hs1 s1 s1 (le_refl _) hsub.1 hsub.2
            (fun k v hm => nodupKeys_mapIndex s1 k v hsub.1 hm)
            (fun k v hm => selfMergeOKStr_member s1 k v hsub.2 hm)
        rw [mergeMapsHelper_strMaps, hself]
        dsimp only
        rw [setKey_self _ _ _ hm1]
        exact hrest
      · have hsmv' : isStrMap v1 = false := by simpa using hsmv
        rw [mergeLoop_cons_replace_present _ _ _ _ _ hnn1 hnn1 hm1 (Or.inr hsmv')]
        rw [setKey_self _ _ _ hm1]
        exact hrest

theorem mergeLoop_no_failed : ∀ n : Nat, ∀ (l d : StrMap) (e : RunErr),
    sizeOf l ≤ n → mergeLoop d l ≠ .failed e := by
  intro n
  induction n using Nat.strong_induction_on with
  | _ n ih =>
    intro l d e hsz h
    match l with
    | [] =>
      rw [mergeLoop_nil] at h
      cases h
    | (k1, v1) :: rest =>
      have hszrest : sizeOf rest < n := by
        have : sizeOf rest < sizeOf ((k1, v1) :: rest) := by
          simp
        omega
      by_cases hn : isNull v1 = true
      · rw [(isNull_iff v1).mp hn, mergeLoop_cons_nullSrc] at h
        cases h
      · have hn' : isNull v1 = false := by simpa using hn
        rcases hdk : mapIndex d k1 with _ | dv
        · rw [mergeLoop_cons_replace_absent _ _ _ _ hn' hdk] at h
          exact ih (sizeOf rest) hszrest rest _ e (le_refl _) h
        · by_cases hdn : isNull dv = true
          · rw [(isNull_iff dv).mp hdn] at hdk
            rw [mergeLoop_cons_nullDst _ _ _ _ hn' hdk] at h
            cases h
          · have hdn' : isNull dv = false := by simpa using hdn
            by_cases hb : isStrMap dv = true ∧ isStrMap v1 = true
            · obtain ⟨d1, rfl⟩ := (isStrMap_iff dv).mp hb.1
              obtain ⟨s1, rfl⟩ := (isStrMap_iff v1).mp hb.2
              rw [mergeLoop_cons_recurse _ _ _ _ _ hdk] at h
              have hs1 : sizeOf s1 < n := by
                have : sizeOf s1 < sizeOf ((k1, GoVal.vStrMap s1) :: rest) := by
                  simp
                  omega
                omega
              rcases hmm : mergeMapsHelper (.vStrMap d1) (.vStrMap s1) with mm | e1 | _ <;>
                rw [hmm] at h
              · exact ih (sizeOf rest) hszrest rest _ e (le_refl _) h
              · rw [mergeMapsHelper_strMaps] at hmm
                exact ih (sizeOf s1) hs1 s1 d1 e1 (le_refl _) hmm
              · cases h
            · have hns : isStrMap dv = false ∨ isStrMap v1 = false := by
                rcases Decidable.not_and_iff_or_not.mp hb with h1 | h1
                · exact Or.inl (by simpa using h1)
                · exact Or.inr (by simpa using h1)
              rw [mergeLoop_cons_replace_present _ _ _ _ _ hn' hdn' hdk hns] at h
              exact ih (sizeOf rest) hszrest rest _ e (le_refl _) h

theorem mergeMapsHelper_no_failed (d s : StrMap) (e : RunErr) :
    mergeMapsHelper (.vStrMap d) (.vStrMap s) ≠ .failed e := by
  rw [mergeMapsHelper_strMaps]
  exact mergeLoop_no_failed (sizeOf s) s d e (le_refl _)

theorem mergeMaps_no_failed (d s : StrMap) (e : RunErr) :
    mergeMaps (.vStrMap d) (.vStrMap s) ≠ .failed e := by
  intro h
  simp only [mergeMaps] at h
  rcases hh : mergeMapsHelper (.vStrMap d) (.vStrMap s) with x | e1 | _ <;> rw [hh] at h
  · obtain ⟨m, rfl⟩ : ∃ m : StrMap, x = .vStrMap m := by
      rw [mergeMapsHelper_strMaps] at hh
      exact mergeLoop_ok_shape _ _ _ hh
    cases h
  · exact mergeMapsHelper_no_failed d s e1 hh
  · cases h

theorem mergeMaps_ok_iff (d s m : StrMap) :
    mergeMaps (.vStrMap d) (.vStrMap s) = .ok m ↔ mergeLoop d s = .ok (.vStrMap m) := by
  constructor
  · intro h
    simp only [mergeMaps] at h
    rcases hh : mergeMapsHelper (.vStrMap d) (.vStrMap s) with x | e1 | _ <;> rw [hh] at h
    · obtain ⟨m1, rfl⟩ : ∃ m1 : StrMap, x = .vStrMap m1 := by
        rw [mergeMapsHelper_strMaps] at hh
        exact mergeLoop_ok_shape _ _ _ hh
      simp only at h
      cases h
      rwa [mergeMapsHelper_strMaps] at hh
    · cases h
    · cases h
  · intro h
    simp only [mergeMaps, mergeMapsHelper_strMaps, h]

theorem processFile_failed_shape (f : VFile) (e : RunErr)
    (h : processFile f = .failed e) : e = .readErr ∨ ∃ b : Bool, e = .parseErr b := by
  obtain ⟨fmt, parsed⟩ := f
  cases parsed with
  | readError =>
    simp only [processFile] at h
    cases h
    exact Or.inl rfl
  | malformed =>
    cases fmt <;> simp only [processFile] at h <;> cases h
    · exact Or.inr ⟨true, rfl⟩
    · exact Or.inr ⟨false, rfl⟩
  | doc v =>
    cases fmt with
    | yaml =>
      simp only [processFile] at h
      rcases hd : decodeYAMLTop v with _ | m <;> rw [hd] at h <;> dsimp only at h
      · cases h
        exact Or.inr ⟨true, rfl⟩
      · rcases hc : convertToMapStringIntf (.vStrMap m) with _ | w <;> rw [hc] at h
        · dsimp only at h
          cases h
        · cases w <;> dsimp only at h <;> cases h
    | json =>
      simp only [processFile] at h
      rcases hd : decodeJSONTop v with _ | m <;> rw [hd] at h <;> dsimp only at h
      · cases h
        exact Or.inr ⟨false, rfl⟩
      · cases h

theorem readValuesFilesAux_no_merge_failed (fs : List VFile) : ∀ data : StrMap,
    readValuesFilesAux data fs ≠ .failed .dstNotStrMap ∧
    readValuesFilesAux data fs ≠ .failed .srcNotStrMap := by
  induction fs with
  | nil =>
    intro data
    refine ⟨fun h => ?_, fun h => ?_⟩ <;> simp [readValuesFilesAux] at h
  | cons f rest ih =>
    intro data
    have key : ∀ e0 : RunErr, (e0 = RunErr.dstNotStrMap ∨ e0 = RunErr.srcNotStrMap) →
        readValuesFilesAux data (f :: rest) ≠ .failed e0 := by
      intro e0 he0 h
      simp only [readValuesFilesAux] at h
      rcases hp : processFile f with inc | e | _ <;> rw [hp] at h <;> dsimp only at h
      · rcases hm : mergeMaps (.vStrMap data) (.vStrMap inc) with m | e1 | _ <;>
          rw [hm] at h <;> dsimp only at h
        · rcases he0 with rfl | rfl
          · exact (ih m).1 h
          · exact (ih m).2 h
        · injection h with hee
          subst hee
          rcases he0 with rfl | rfl
          · exact mergeMaps_no_failed data inc _ hm
          · exact mergeMaps_no_failed data inc _ hm
        · cases h
      · rcases he0 with rfl | rfl <;>
          (injection h with hee
           subst hee
           rcases processFile_failed_shape f _ hp with h1 | ⟨b, h1⟩ <;> cases h1)
      · cases h
    exact ⟨key _ (Or.inl rfl), key _ (Or.inr rfl)⟩

theorem mergeLoop_empty_dst (t : StrMap) (hnd : nodupKeys t = true)
    (hnn : ∀ (k : String) (v : GoVal), (k, v) ∈ t → isNull v = false) :
    mergeLoop [] t = .ok (.vStrMap t) := by
  have := mergeLoop_disjoint t [] hnd (fun k v _ => rfl) hnn
  simpa using this

theorem mergeLoop_self (t : StrMap) (hnd : nodupKeys t = true)
    (hsm : selfMergeOKStr t = true) : mergeLoop t t = .ok (.vStrMap t) :=
  mergeLoop_self_aux (sizeOf t) t t (le_refl _) hnd hsm
    (fun k v hm => nodupKeys_mapIndex t k v hnd hm)
    (fun k v hm => selfMergeOKStr_member t k v hsm hm)

theorem readValuesFilesAux_append (fs1 : List VFile) : ∀ (data : StrMap) (fs2 : List VFile),
    readValuesFilesAux data (fs1 ++ fs2) =
      resBind (readValuesFilesAux data fs1) (fun m => readValuesFilesAux m fs2) := by
  induction fs1 with
  | nil =>
    intro data fs2
    rfl
  | cons f rest ih =>
    intro data fs2
    simp only [List.cons_append, readValuesFilesAux]
    rcases hp : processFile f with inc | e | _ <;> dsimp only [resBind]
    rcases hm : mergeMaps (.vStrMap data) (.vStrMap inc) with m | e1 | _ <;> dsimp only
    exact ih m fs2

theorem conv_strMap_eq (m : List (String × GoVal)) :
    convertToMapStringIntf (.vStrMap m) =
      match convStrEntries m with
      | some l => some (.vStrMap l)
      | none => none := by
  rw [convertToMapStringIntf.eq_def]

theorem conv_intfMap_eq (m : List (GoVal × GoVal)) :
    convertToMapStringIntf (.vIntfMap m) =
      match convIntfEntries m with
      | some l => some (.vStrMap l)
      | none => none := by
  rw [convertToMapStringIntf.eq_def]

theorem conv_default_eq (v : GoVal) (h1 : isStrMap v = false)
    (h2 : ∀ m : List (GoVal × GoVal), v ≠ .vIntfMap m) :
    convertToMapStringIntf v = some v := by
  rw [convertToMapStringIntf.eq_def]
  cases v <;> first | rfl | exact absurd rfl (h2 _) | simp [isStrMap] at h1

theorem convStrEntries_cons (k : String) (v : GoVal) (rest : List (String × GoVal)) :
    convStrEntries ((k, v) :: rest) =
      match convertToMapStringIntf v with
      | some v1 =>
        match convStrEntries rest with
        | some l1 => some ((k, v1) :: l1)
        | none => none
      | none => none := by
  rw [convStrEntries.eq_def]

theorem convIntfEntries_strKey_cons (s : String) (v : GoVal) (rest : List (GoVal × GoVal)) :
    convIntfEntries ((.vStr s, v) :: rest) =
      match convertToMapStringIntf v with
      | some v1 =>
        match convIntfEntries rest with
        | some l1 => some ((s, v1) :: l1)
        | none => none
      | none => none := by
  rw [convIntfEntries.eq_def]

theorem convIntfEntries_badKey_cons (kv : GoVal × GoVal) (rest : List (GoVal × GoVal))
    (h : ∀ s : String, kv.1 ≠ .vStr s) :
    convIntfEntries (kv :: rest) = none := by
  obtain ⟨kk, v⟩ := kv
  rw [convIntfEntries.eq_def]
  cases kk <;> first | rfl | exact absurd rfl (h _)

theorem keysOK_strMap (m : List (String × GoVal)) :
    keysOK (.vStrMap m) = keysOKStr m := by
  rw [keysOK.eq_def]

theorem keysOK_intfMap (m : List (GoVal × GoVal)) :
    keysOK (.vIntfMap m) = keysOKIntf m := by
  rw [keysOK.eq_def]

theorem keysOKStr_cons (k : String) (v : GoVal) (rest : List (String × GoVal)) :
    keysOKStr ((k, v) :: rest) = (keysOK v && keysOKStr rest) := by
  rw [keysOKStr.eq_def]

theorem keysOKIntf_strKey_cons (s : String) (v : GoVal) (rest : List (GoVal × GoVal)) :
    keysOKIntf ((.vStr s, v) :: rest) = (keysOK v && keysOKIntf rest) := by
  rw [keysOKIntf.eq_def]

theorem keysOKIntf_badKey_cons (kv : GoVal × GoVal) (rest : List (GoVal × GoVal))
    (h : ∀ s : String, kv.1 ≠ .vStr s) :
    keysOKIntf (kv :: rest) = false := by
  obtain ⟨kk, v⟩ := kv
  rw [keysOKIntf.eq_def]
  cases kk <;> first | rfl | exact absurd rfl (h _)

theorem convOK_aux : ∀ n : Nat,
    (∀ t : GoVal, sizeOf t ≤ n → (convertToMapStringIntf t).isSome = keysOK t) ∧
    (∀ l : List (String × GoVal), sizeOf l ≤ n → (convStrEntries l).isSome = keysOKStr l) ∧
    (∀ l : List (GoVal × GoVal), sizeOf l ≤ n → (convIntfEntries l).isSome = keysOKIntf l) := by
  intro n
  induction n using Nat.strong_induction_on with
  | _ n ih =>
    refine ⟨fun t ht => ?_, fun l hl => ?_, fun l hl => ?_⟩
    · match t with
      | .vStrMap m =>
        have hm : sizeOf m < n := by
          have : sizeOf m < sizeOf (GoVal.vStrMap m) := by
            simp
          omega
        have h2 := ((ih (sizeOf m) hm).2.1) m (le_refl _)
        rw [conv_strMap_eq, keysOK_strMap, ← h2]
        rcases convStrEntries m with _ | l1 <;> rfl
      | .vIntfMap m =>
        have hm : sizeOf m < n := by
          have : sizeOf m < sizeOf (GoVal.vIntfMap m) := by
            simp
          omega
        have h2 := ((ih (sizeOf m) hm).2.2) m (le_refl _)
        rw [conv_intfMap_eq, keysOK_intfMap, ← h2]
        rcases convIntfEntries m with _ | l1 <;> rfl
      | .vNull => rfl
      | .vBool b => rfl
      | .vInt i => rfl
      | .vStr s => rfl
      | .vSeq s => rfl
    · match l with
      | [] => rfl
      | (k, v) :: rest =>
        have hv : sizeOf v < n := by
          have : sizeOf v < sizeOf ((k, v) :: rest) := by
            simp
            omega
          omega
        have hr : sizeOf rest < n := by
          have : sizeOf rest < sizeOf ((k, v) :: rest) := by
            simp
          omega
        have h1 := ((ih (sizeOf v) hv).1) v (le_refl _)
        have h2 := ((ih (sizeOf rest) hr).2.1) rest (le_refl _)
        rw [convStrEntries_cons, keysOKStr_cons, ← h1, ← h2]
        rcases convertToMapStringIntf v with _ | v1
        · rfl
        · rcases convStrEntries rest with _ | l1 <;> rfl
    · match l with
      | [] => rfl
      | (kk, v) :: rest =>
        match kk with
        | .vStr s =>
          have hv : sizeOf v < n := by
            have : sizeOf v < sizeOf ((GoVal.vStr s, v) :: rest) := by
              simp
              omega
            omega
          have hr : sizeOf rest < n := by
            have : sizeOf rest < sizeOf ((GoVal.vStr s, v) :: rest) := by
              simp
            omega
          have h1 := ((ih (sizeOf v) hv).1) v (le_refl _)
          have h2 := ((ih (sizeOf rest) hr).2.2) rest (le_refl _)
          rw [convIntfEntries_strKey_cons, keysOKIntf_strKey_cons, ← h1, ← h2]
          rcases convertToMapStringIntf v with _ | v1
          · rfl
          · rcases convIntfEntries rest with _ | l1 <;> rfl
        | .vNull =>
          rw [convIntfEntries_badKey_cons _ _ (by intro s h; cases h),
            keysOKIntf_badKey_cons _ _ (by intro s h; cases h)]
          rfl
        | .vBool b =>
          rw [convIntfEntries_badKey_cons _ _ (by intro s h; cases h),
            keysOKIntf_badKey_cons _ _ (by intro s h; cases h)]
          rfl
        | .vInt i =>
          rw [convIntfEntries_badKey_cons _ _ (by intro s h; cases h),
            keysOKIntf_badKey_cons _ _ (by intro s h; cases h)]
          rfl
        | .vSeq s =>
          rw [convIntfEntries_badKey_cons _ _ (by intro s h; cases h),
            keysOKIntf_badKey_cons _ _ (by intro s h; cases h)]
          rfl
        | .vStrMap m =>
          rw [convIntfEntries_badKey_cons _ _ (by intro s h; cases h),
            keysOKIntf_badKey_cons _ _ (by intro s h; cases h)]
          rfl
        | .vIntfMap m =>
          rw [convIntfEntries_badKey_cons _ _ (by intro s h; cases h),
            keysOKIntf_badKey_cons _ _ (by intro s h; cases h)]
          rfl

theorem conv_isSome_eq_keysOK (t : GoVal) :
    (convertToMapStringIntf t).isSome = keysOK t :=
  ((convOK_aux (sizeOf t)).1) t (le_refl _)

theorem processFile_jsonFile (m : StrMap) : processFile (jsonFile m) = .ok m := rfl

theorem isScalar_not_strMap (v : GoVal) (h : isScalar v = true) : isStrMap v = false := by
  cases v <;> simp_all [isScalar, isStrMap]

theorem treeSelfOK_ok (t : StrMap) :
    treeSelfOK (.ok t) = (nodupKeys t && selfMergeOKStr t) := rfl

theorem readValuesFiles_two_ok (a b m : StrMap)
    (h : readValuesFiles [jsonFile a, jsonFile b] = .ok m) :
    ∃ m1 : StrMap, mergeMaps (.vStrMap []) (.vStrMap a) = .ok m1 ∧
      mergeMaps (.vStrMap m1) (.vStrMap b) = .ok m := by
  simp only [readValuesFiles, readValuesFilesAux, processFile_jsonFile] at h
  rcases hm1 : mergeMaps (.vStrMap []) (.vStrMap a) with m1 | e | _ <;>
    rw [hm1] at h <;> dsimp only at h
  · rcases hm2 : mergeMaps (.vStrMap m1) (.vStrMap b) with m2 | e | _ <;>
      rw [hm2] at h <;> dsimp only at h
    · cases h
      exact ⟨m1, rfl, hm2⟩
    · cases h
    · cases h
  · cases h
  · cases h

theorem lastFileWins (a b : StrMap) (k : String) (v2 : GoVal)
    (hndb : nodupKeys b = true) (hbk : mapIndex b k = some v2)
    (hsc : isScalar v2 = true) :
    ∀ m : StrMap, readValuesFiles [jsonFile a, jsonFile b] = .ok m →
      mapIndex m k = some v2 := by
  intro m h
  obtain ⟨m1, _, hm2⟩ := readValuesFiles_two_ok a b m h
  have hloop : mergeLoop m1 b = .ok (.vStrMap m) := (mergeMaps_ok_iff _ _ _).mp hm2
  exact mergeLoop_lookup_replace b m1 m k v2 hndb hbk
    (Or.inl (isScalar_not_strMap v2 hsc)) hloop

/-- C1: for every accumulator mapping and incoming mapping with string-keyed
map values at a common key, the merge recurses, storing the merge of the two
sub-mappings at that key rather than replacing the accumulator sub-mapping;
in particular merging the files db: (host a, port 5432) and db: (host b)
yields db: (host b, port 5432). -/
theorem c1_deep_merge_recurses_into_common_mappings :
    (∀ (d s m d1 s1 : StrMap) (k : String),
      nodupKeys s = true →
      mapIndex d k = some (.vStrMap d1) →
      mapIndex s k = some (.vStrMap s1) →
      mergeMapsHelper (.vStrMap d) (.vStrMap s) = .ok (.vStrMap m) →
      ∃ m1 : StrMap, mergeMapsHelper (.vStrMap d1) (.vStrMap s1) = .ok (.vStrMap m1) ∧
        mapIndex m k = some (.vStrMap m1)) ∧
    readValuesFiles
      [jsonFile [("db", .vStrMap [("host", .vStr "a"), ("port", .vInt 5432)])],
       jsonFile [("db", .vStrMap [("host", .vStr "b")])]] =
      .ok [("db", .vStrMap [("host", .vStr "b"), ("port", .vInt 5432)])] := by
  constructor
  · intro d s m d1 s1 k hnd hdk hsk h
    rw [mergeMapsHelper_strMaps] at h
    exact mergeLoop_lookup_recurse s d m d1 s1 k hnd hsk hdk h
  · rfl

/-- C1 witness: the recursion statement applied at a concrete pair of
mappings sharing the key db with map values. -/
theorem c1_witness :
    mergeMapsHelper (.vStrMap [("p", .vInt 1)]) (.vStrMap [("q", .vInt 2)]) =
      .ok (.vStrMap [("p", .vInt 1), ("q", .vInt 2)]) ∧
    mapIndex [("db", .vStrMap [("p", .vInt 1), ("q", .vInt 2)])] "db" =
      some (.vStrMap [("p", .vInt 1), ("q", .vInt 2)]) := by
  obtain ⟨m1, h1, h2⟩ := c1_deep_merge_recurses_into_common_mappings.1
    [("db", .vStrMap [("p", .vInt 1)])] [("db", .vStrMap [("q", .vInt 2)])]
    [("db", .vStrMap [("p", .vInt 1), ("q", .vInt 2)])]
    [("p", .vInt 1)] [("q", .vInt 2)] "db" rfl rfl rfl rfl
  have h3 : Res.ok (GoVal.vStrMap m1) =
      Res.ok (GoVal.vStrMap [("p", GoVal.vInt 1), ("q", GoVal.vInt 2)]) :=
    h1.symm.trans rfl
  injection h3 with h4
  injection h4 with h5
  subst h5
  exact ⟨h1, h2⟩

/-- C2: the claim says a key absent from the accumulator (or with a
non-mapping value on either side) is set wholesale to the incoming value,
with null an ordinary scalar; but merging the incoming mapping (a maps to
null) into the empty accumulator panics, because
src.MapIndex(key).Elem() on a nil interface value yields the zero
reflect.Value and .Type() on it panics (main.go line 170). -/
theorem c2_merge_panics_on_null_incoming_value :
    mergeMaps (.vStrMap []) (.vStrMap [("a", .vNull)]) = .panicked := rfl

/-- C3 counterexample: normalization leaves a sequence wrapping an
interface-keyed mapping completely unchanged: the inner mapping is not
rewritten to a string-keyed one. -/
theorem c3_counterexample_seq_intf_map_left_unchanged :
    convertToMapStringIntf (.vSeq [.vIntfMap [(.vStr "a", .vInt 1)]]) =
      some (.vSeq [.vIntfMap [(.vStr "a", .vInt 1)]]) := rfl

/-- C3 amended: the normalization pass does not recurse into sequences at
all; a sequence falls into the default branch of the type switch and is
returned unchanged, whatever its elements are. -/
theorem c3_sequences_returned_unchanged (l : List GoVal) :
    convertToMapStringIntf (.vSeq l) = some (.vSeq l) :=
  conv_default_eq (.vSeq l) rfl (fun m h => by cases h)

/-- C4 counterexample: a non-string key in an interface-keyed mapping makes
the normalization pass panic (an unchecked type assertion, modelled by
none); it does not return a TypeError value -- the function has no error
channel -- and this happens even for an integer key that has a string
form. -/
theorem c4_counterexample_non_string_key_panics :
    convertToMapStringIntf (.vIntfMap [(.vBool true, .vNull)]) = none ∧
    convertToMapStringIntf (.vIntfMap [(.vInt 5, .vNull)]) = none := ⟨rfl, rfl⟩

/-- C4 amended: the normalization pass terminates normally exactly when
every interface-keyed mapping it reaches (through mapping values; sequences
are never entered) has only string keys, in which case an interface-keyed
mapping with string keys is rebuilt as the equivalent string-keyed mapping;
any non-string key crashes the run with a type-assertion panic instead of
producing an error value. -/
theorem c4_normalization_succeeds_iff_reachable_keys_are_strings :
    (∀ t : GoVal, (convertToMapStringIntf t).isSome = keysOK t) ∧
    convertToMapStringIntf (.vIntfMap [(.vStr "a", .vInt 1),
      (.vStr "b", .vIntfMap [(.vStr "c", .vNull)])]) =
      some (.vStrMap [("a", .vInt 1), ("b", .vStrMap [("c", .vNull)])]) :=
  ⟨conv_isSome_eq_keysOK, rfl⟩

/-- C5 counterexample: a values file whose top-level document is a bare
sequence fails while decoding, with the wrapped parse error of
readValuesFiles (failed to parse values file as json), not with a merge-time
expected-a-mapping error: the decode targets a string-keyed map variable, so
a non-mapping document never reaches mergeMaps. -/
theorem c5_counterexample_bare_sequence_fails_at_decode :
    readValuesFiles [⟨.json, .doc (.vSeq [.vInt 1])⟩] = .failed (.parseErr false) := rfl

/-- C5 amended: a bare-sequence or bare-scalar top-level document fails at
decode time with a parse error (shown for a yaml file with a sequence
document), and the two expected-a-mapping error branches of mergeMapsHelper
are unreachable from readValuesFiles for every input list. -/
theorem c5_non_mapping_root_decode_error_merge_check_unreachable :
    (∀ fs : List VFile, readValuesFiles fs ≠ .failed .dstNotStrMap ∧
      readValuesFiles fs ≠ .failed .srcNotStrMap) ∧
    readValuesFiles [⟨.yaml, .doc (.vSeq [])⟩] = .failed (.parseErr true) :=
  ⟨fun fs => readValuesFilesAux_no_merge_failed fs [], rfl⟩

/-- C5 witness: the unreachability statement instantiated at a concrete
file list. -/
theorem c5_witness :
    readValuesFiles [jsonFile [("x", .vInt 1)]] ≠ .failed .dstNotStrMap ∧
    readValuesFiles [jsonFile [("x", .vInt 1)]] ≠ .failed .srcNotStrMap :=
  c5_non_mapping_root_decode_error_merge_check_unreachable.1 [jsonFile [("x", .vInt 1)]]

/-- C6 counterexample: the claim quantifies over all scalar values, and null
is a scalar of the data model; but with file A setting k to 1 and file B
setting k to null, resolving the list A, B panics instead of yielding k =
null, so the later file does not win there. -/
theorem c6_counterexample_null_scalar_crashes_merge :
    readValuesFiles [jsonFile [("k", .vInt 1)], jsonFile [("k", .vNull)]] = .panicked := rfl

/-- C6 amended: for two files that both set key k to scalar values, whenever
resolution completes without crashing (which excludes null scalars at merged
keys), the later file in command-line order wins: resolving A, B yields k =
v2 and resolving B, A yields k = v1. -/
theorem c6_later_file_wins_at_scalar_leaves (a b : StrMap) (k : String) (v1 v2 : GoVal)
    (hnda : nodupKeys a = true) (hndb : nodupKeys b = true)
    (hak : mapIndex a k = some v1) (hbk : mapIndex b k = some v2)
    (hs1 : isScalar v1 = true) (hs2 : isScalar v2 = true) :
    (∀ m : StrMap, readValuesFiles [jsonFile a, jsonFile b] = .ok m →
      mapIndex m k = some v2) ∧
    (∀ m : StrMap, readValuesFiles [jsonFile b, jsonFile a] = .ok m →
      mapIndex m k = some v1) :=
  ⟨lastFileWins a b k v2 hndb hbk hs2, lastFileWins b a k v1 hnda hak hs1⟩

/-- C6 witness: precedence applied to the concrete files k maps to 1 and k
maps to 2, in both orders. -/
theorem c6_witness :
    mapIndex [("k", GoVal.vInt 2)] "k" = some (.vInt 2) ∧
    mapIndex [("k", GoVal.vInt 1)] "k" = some (.vInt 1) := by
  have h := c6_later_file_wins_at_scalar_leaves [("k", .vInt 1)] [("k", .vInt 2)]
    "k" (.vInt 1) (.vInt 2) rfl rfl rfl rfl rfl rfl
  exact ⟨h.1 [("k", GoVal.vInt 2)] rfl, h.2 [("k", GoVal.vInt 1)] rfl⟩

/-- C7 counterexample: resolving the single file a: (b: null) succeeds, but
resolving it twice panics: the second merge step recurses into the common
sub-mapping at key a and hits the null value at key b, so re-merging is not
idempotent on the code as it stands. -/
theorem c7_counterexample_remerge_panics_on_nested_null :
    readValuesFiles [jsonFile [("a", .vStrMap [("b", .vNull)])]] =
      .ok [("a", .vStrMap [("b", .vNull)])] ∧
    readValuesFiles [jsonFile [("a", .vStrMap [("b", .vNull)])],
      jsonFile [("a", .vStrMap [("b", .vNull)])]] = .panicked := ⟨rfl, rfl⟩

/-- C7 amended: resolving the list A, A yields the same outcome as resolving
A alone, provided the normalized tree of A (when it is produced at all) has
pairwise distinct keys and no null value at any mapping level that the merge
recursion can reach. -/
theorem c7_remerge_idempotent_for_null_free_trees (f : VFile)
    (h : treeSelfOK (processFile f) = true) :
    readValuesFiles [f, f] = readValuesFiles [f] := by
  rcases hp : processFile f with t | e | _
  · rw [hp, treeSelfOK_ok, Bool.and_eq_true] at h
    obtain ⟨hnd, hsm⟩ := h
    have hnn : ∀ (k : String) (v : GoVal), (k, v) ∈ t → isNull v = false :=
      fun k v hm => (selfMergeOKStr_member t k v hsm hm).1
    have hm1 : mergeMaps (.vStrMap []) (.vStrMap t) = .ok t :=
      (mergeMaps_ok_iff _ _ _).mpr (mergeLoop_empty_dst t hnd hnn)
    have hm2 : mergeMaps (.vStrMap t) (.vStrMap t) = .ok t :=
      (mergeMaps_ok_iff _ _ _).mpr (mergeLoop_self t hnd hsm)
    simp only [readValuesFiles, readValuesFilesAux, hp, hm1, hm2]
  · simp only [readValuesFiles, readValuesFilesAux, hp]
  · simp only [readValuesFiles, readValuesFilesAux, hp]

/-- C7 witness: idempotence applied to the concrete file a maps to 1. -/
theorem c7_witness :
    readValuesFiles [jsonFile [("a", .vInt 1)], jsonFile [("a", .vInt 1)]] =
      readValuesFiles [jsonFile [("a", .vInt 1)]] :=
  c7_remerge_idempotent_for_null_free_trees (jsonFile [("a", .vInt 1)]) rfl

/-- C8: a key absent from the incoming mapping is left untouched by a merge
step: whenever the merge of two string-keyed mappings returns a result, the
value at any key that does not occur in the source equals the value the
accumulator already had. -/
theorem c8_merge_leaves_absent_keys_untouched (d s m : StrMap) (k : String)
    (hs : mapIndex s k = none)
    (h : mergeMapsHelper (.vStrMap d) (.vStrMap s) = .ok (.vStrMap m)) :
    mapIndex m k = mapIndex d k := by
  rw [mergeMapsHelper_strMaps] at h
  exact mergeLoop_frame s d m k hs h

/-- C8 witness: the frame statement applied to a concrete accumulator
holding key keep and an incoming mapping without it. -/
theorem c8_witness :
    mapIndex [("keep", GoVal.vInt 7), ("other", GoVal.vBool true)] "keep" =
      mapIndex [("keep", GoVal.vInt 7)] "keep" :=
  c8_merge_leaves_absent_keys_untouched [("keep", .vInt 7)] [("other", .vBool true)]
    [("keep", .vInt 7), ("other", .vBool true)] "keep" rfl rfl

/-- C9: the resolution fold over the file list is sequential with abort at
the first failure: folding a concatenated list equals folding the first part
and, only if it produced a value, continuing with the second part from that
accumulator; in particular when the first part fails (with an error or a
panic), the remaining files are never processed and that first failure is
the outcome, with no partial result. -/
theorem c9_resolution_folds_and_aborts_at_first_failure :
    (∀ (data : StrMap) (fs1 fs2 : List VFile),
      readValuesFilesAux data (fs1 ++ fs2) =
        resBind (readValuesFilesAux data fs1) (fun m => readValuesFilesAux m fs2)) ∧
    (∀ fs1 fs2 : List VFile, (∀ m : StrMap, readValuesFiles fs1 ≠ .ok m) →
      readValuesFiles (fs1 ++ fs2) = readValuesFiles fs1) := by
  constructor
  · intro data fs1 fs2
    exact readValuesFilesAux_append fs1 data fs2
  · intro fs1 fs2 h
    rw [readValuesFiles, readValuesFilesAux_append fs1 [] fs2]
    rcases hr : readValuesFilesAux [] fs1 with m | e | _
    · exact absurd hr (h m)
    · rw [readValuesFiles, hr]
      rfl
    · rw [readValuesFiles, hr]
      rfl

/-- C9 witness: a malformed first file aborts resolution with its parse
error, with a well-formed second file never processed. -/
theorem c9_witness :
    readValuesFiles [⟨Fmt.json, ParseResult.malformed⟩, jsonFile [("x", .vInt 1)]] =
      readValuesFiles [⟨Fmt.json, ParseResult.malformed⟩] :=
  c9_resolution_folds_and_aborts_at_first_failure.2
    [⟨Fmt.json, ParseResult.malformed⟩] [jsonFile [("x", .vInt 1)]]
    (fun m h => by cases h)

/-- C10 counterexample: with both inputs string-keyed mappings the merge
still does not always succeed: a null value at a source key panics the run
(it does not return an error, it crashes). -/
theorem c10_counterexample_merge_panics_on_null :
    mergeMapsHelper (.vStrMap [("k", .vInt 1)]) (.vStrMap [("x", .vNull)]) =
      .panicked := rfl

/-- C10 amended: when both inputs are string-keyed mappings at their root,
the two type-check error branches of mergeMapsHelper are unreachable, at the
top level and through every recursive call, because the recursion is entered
only when both sub-values are string-keyed mappings; so the merge never
returns an error (though it can still panic on null values). -/
theorem c10_merge_never_returns_error_for_string_map_roots (d s : StrMap) (e : RunErr) :
    mergeMapsHelper (.vStrMap d) (.vStrMap s) ≠ .failed e :=
  mergeMapsHelper_no_failed d s e

/-- C10 witness: the no-error statement at concrete mappings. -/
theorem c10_witness :
    mergeMapsHelper (.vStrMap []) (.vStrMap [("x", .vInt 1)]) ≠
      .failed .dstNotStrMap :=
  c10_merge_never_returns_error_for_string_map_roots [] [("x", .vInt 1)] .dstNotStrMap
